import Mathlib

/-
Verification of the table-driven Mealy FSM engine of tulip-control,
contrib/fmu/include/FSM.h.

The repository ships only the header: `struct FSM { int currentState; }`,
`FSM* init_fsm()`, `int fsm_transition(FSM* fsm, int input[])`,
`void free_fsm(FSM* fsm)`, together with an `#include "mealydata.h"` whose
file is not part of the sources.  The declared shapes of the header are
transcribed literally below (`CType`, `FSM_struct`, `fsm_transition_decl`,
`init_fsm_decl`, `free_fsm_decl`, `FSM_h_includes`).  The behaviour of the
engine (table lookup, create, step) has no body in the sources, so it is
modelled from the specification, sections 3, 4.1, 4.2 and 7.
-/

namespace TulipFSM

/-- Transcribed from FSM.h lines 7 to 9: the C struct `FSM` holds a single
field, the machine current state, an `int`. -/
structure FSM where
  currentState : Int
  deriving DecidableEq, Repr

/-- A small model of the C types appearing in FSM.h: `int`, `void`,
pointers, named structs, and an array parameter `T[]` that carries no
explicit length. -/
inductive CType where
  | int : CType
  | voidT : CType
  | ptr : CType → CType
  | structT : String → CType
  | arrayNoLen : CType → CType
  deriving DecidableEq, Repr

/-- A field of a C struct: its type and its name. -/
structure CField where
  ctype : CType
  cname : String
  deriving DecidableEq, Repr

/-- A C struct declaration: its name and its ordered field list. -/
structure CStructDecl where
  sname : String
  fields : List CField
  deriving DecidableEq, Repr

/-- A C function declaration: return type, name, ordered parameter types. -/
structure CFunDecl where
  ret : CType
  fname : String
  params : List CType
  deriving DecidableEq, Repr

/-- FSM.h lines 7 to 9: `typedef struct FSM { int currentState; } FSM;`. -/
def FSM_struct : CStructDecl :=
  ⟨"FSM", [⟨CType.int, "currentState"⟩]⟩

/-- FSM.h line 11: `FSM* init_fsm();` — no parameters. -/
def init_fsm_decl : CFunDecl :=
  ⟨CType.ptr (CType.structT "FSM"), "init_fsm", []⟩

/-- FSM.h line 13: `int fsm_transition(FSM* fsm, int input[]);` — one `int`
result, an engine handle and a length-less `int[]` parameter. -/
def fsm_transition_decl : CFunDecl :=
  ⟨CType.int, "fsm_transition", [CType.ptr (CType.structT "FSM"), CType.arrayNoLen CType.int]⟩

/-- FSM.h line 15: `void free_fsm(FSM* fsm);`. -/
def free_fsm_decl : CFunDecl :=
  ⟨CType.voidT, "free_fsm", [CType.ptr (CType.structT "FSM")]⟩

/-- FSM.h lines 4 and 5: the two `#include` directives of the header. -/
def FSM_h_includes : List String := ["stdlib.h", "mealydata.h"]

/-- Modelled from the spec: the transition table lives in `mealydata.h`,
which is not among the sources (FSM.h only includes it by name).  Spec
sections 3 and 4.1: a read-only partial map from (state, inputSymbol) to
(nextState, outputSymbol), states ranging over [0, N_STATES).  It is kept
as a declared state count plus an association list of entries. -/
structure TransitionTable where
  nStates : Nat
  entries : List ((Int × Int) × (Int × Int))
  deriving DecidableEq, Repr

/-- Modelled from the spec, section 4.1: `lookup(state, inputSymbol)`
returns `Option (nextState, outputSymbol)`, `none` for unmapped pairs,
never an exception.  The first matching entry of the list is taken. -/
def TransitionTable.lookup (t : TransitionTable) (s i : Int) : Option (Int × Int) :=
  (t.entries.find? (fun e => e.1 == (s, i))).map (fun e => e.2)

/-- Modelled from the spec, section 7: the error taxonomy of the engine.
`InvalidState` carries the offending state; `UndefinedTransition` carries
the state, the input symbol and the input index at which no table entry
exists.  (`UseAfterDestroy` concerns the destroy lifecycle, outside the
operations modelled here.) -/
inductive FSMError where
  | InvalidState : Int → FSMError
  | UndefinedTransition : Int → Int → Nat → FSMError
  deriving DecidableEq, Repr

/-- Modelled from the spec, section 4.2: `create(table, initialState)`
yields a fresh engine with `currentState = initialState` when the state
lies in the declared range, and fails with `InvalidState` otherwise.
The body of the C `init_fsm` is not among the sources. -/
def create (t : TransitionTable) (initialState : Int) : Except FSMError FSM :=
  if 0 ≤ initialState ∧ initialState < (t.nStates : Int) then
    Except.ok ⟨initialState⟩
  else
    Except.error (FSMError.InvalidState initialState)

/-- Modelled from the spec, section 4.2: `create` with its declared default
initial state, state 0. -/
def createDefault (t : TransitionTable) : Except FSMError FSM :=
  create t 0

/-- Modelled from the spec, section 4.2: the processing loop of `step`.
From state `s`, at input index `k`, consume the input list in order: on a
defined transition move to the next state and record the output, on an
unmapped pair abort the whole call with `UndefinedTransition s i k`.
The body of the C `fsm_transition` is not among the sources. -/
def stepAux (t : TransitionTable) (s : Int) (k : Nat) :
    List Int → Except FSMError (Int × List Int)
  | [] => Except.ok (s, [])
  | i :: rest =>
    match t.lookup s i with
    | none => Except.error (FSMError.UndefinedTransition s i k)
    | some p =>
      match stepAux t p.1 (k + 1) rest with
      | Except.error err => Except.error err
      | Except.ok q => Except.ok (q.1, p.2 :: q.2)

/-- Modelled from the spec, section 4.2, policy (a) abort-and-rollback:
`step` returns the engine after the call together with the result.  On
success the engine carries the final state and the result is the output
list; on failure the returned engine is the pre-call engine unchanged. -/
def step (t : TransitionTable) (e : FSM) (inputs : List Int) :
    FSM × Except FSMError (List Int) :=
  match stepAux t e.currentState 0 inputs with
  | Except.error err => (e, Except.error err)
  | Except.ok q => (⟨q.1⟩, Except.ok q.2)

/-- The engine reached by n successive single-symbol `step` calls, each
call acting on the engine the previous call returned. -/
def stepEach (t : TransitionTable) (e : FSM) (inputs : List Int) : FSM :=
  inputs.foldl (fun acc i => (step t acc [i]).1) e

/-- The fold of the table transition function over an input list: the state
reached from `s`, or `none` as soon as some pair is unmapped. -/
def tableRun (t : TransitionTable) (s : Int) : List Int → Option Int
  | [] => some s
  | i :: rest =>
    match t.lookup s i with
    | none => none
    | some p => tableRun t p.1 rest

/-- The fold of the table output function over an input list: one output
symbol per consumed input, in input order, or `none` as soon as some pair
is unmapped. -/
def tableOuts (t : TransitionTable) (s : Int) : List Int → Option (List Int)
  | [] => some []
  | i :: rest =>
    match t.lookup s i with
    | none => none
    | some p => (tableOuts t p.1 rest).map (fun os => p.2 :: os)

/-- The number of table lookups the `step` loop performs from state `s` on
an input list: one per consumed input, stopping at the first unmapped
pair. -/
def stepLookups (t : TransitionTable) : Int → List Int → Nat
  | _, [] => 0
  | s, i :: rest =>
    match t.lookup s i with
    | none => 1
    | some p => 1 + stepLookups t p.1 rest

/-- A fuel-bounded variant of the `step` loop: it spends one unit of fuel
per consumed input and answers `none` when the fuel runs out, making the
loop bound of `step` explicit. -/
def stepAuxFuel (t : TransitionTable) :
    Nat → Int → Nat → List Int → Option (Except FSMError (Int × List Int))
  | _, s, _, [] => some (Except.ok (s, []))
  | 0, _, _, _ :: _ => none
  | fuel + 1, s, k, i :: rest =>
    match t.lookup s i with
    | none => some (Except.error (FSMError.UndefinedTransition s i k))
    | some p =>
      match stepAuxFuel t fuel p.1 (k + 1) rest with
      | none => none
      | some (Except.error err) => some (Except.error err)
      | some (Except.ok q) => some (Except.ok (q.1, p.2 :: q.2))

/-- The concrete example table of spec section 8, with character codes
97, 98, 99 for a, b, c and 120, 121 for x, y:
(0, a) goes to (1, x) and (1, b) goes to (0, y), two declared states. -/
def exTable : TransitionTable :=
  ⟨2, [((0, 97), (1, 120)), ((1, 98), (0, 121))]⟩

/-- On success, the `step` loop realises the folds: the final state is
`tableRun`, the outputs are `tableOuts`, one output per consumed input. -/
theorem stepAux_ok (t : TransitionTable) (inputs : List Int) :
    ∀ (s : Int) (k : Nat) (q : Int × List Int),
      stepAux t s k inputs = Except.ok q →
      tableRun t s inputs = some q.1 ∧ tableOuts t s inputs = some q.2 ∧
        q.2.length = inputs.length := by
  induction inputs with
  | nil =>
    intro s k q h
    simp only [stepAux, Except.ok.injEq] at h
    subst h
    simp [tableRun, tableOuts]
  | cons i rest ih =>
    intro s k q h
    cases hl : t.lookup s i with
    | none => simp [stepAux, hl] at h
    | some p =>
      cases hr : stepAux t p.1 (k + 1) rest with
      | error err => simp [stepAux, hl, hr] at h
      | ok q2 =>
        simp only [stepAux, hl, hr, Except.ok.injEq] at h
        obtain ⟨r1, r2, r3⟩ := ih p.1 (k + 1) q2 hr
        subst h
        simp [tableRun, tableOuts, hl, r1, r2, r3]

/-- On failure, the `step` loop reports the first unmapped pair: the error
carries the index `k + j` of the offending input, the state reached after
the first `j` inputs, and that state and input have no table entry. -/
theorem stepAux_error (t : TransitionTable) (inputs : List Int) :
    ∀ (s : Int) (k : Nat) (err : FSMError),
      stepAux t s k inputs = Except.error err →
      ∃ j s2 i, err = FSMError.UndefinedTransition s2 i (k + j) ∧
        inputs[j]? = some i ∧
        tableRun t s (inputs.take j) = some s2 ∧
        t.lookup s2 i = none := by
  induction inputs with
  | nil => intro s k err h; simp [stepAux] at h
  | cons i rest ih =>
    intro s k err h
    cases hl : t.lookup s i with
    | none =>
      simp only [stepAux, hl, Except.error.injEq] at h
      exact ⟨0, s, i, by simp [← h], by simp, by simp [tableRun], hl⟩
    | some p =>
      cases hr : stepAux t p.1 (k + 1) rest with
      | ok q => simp [stepAux, hl, hr] at h
      | error err2 =>
        simp only [stepAux, hl, hr, Except.error.injEq] at h
        subst h
        obtain ⟨j, s2, i2, he, hg, hrun, hlk⟩ := ih p.1 (k + 1) err2 hr
        refine ⟨j + 1, s2, i2, ?_, by simpa using hg, ?_, hlk⟩
        · rw [he]; ring_nf
        · simpa [List.take_succ_cons, tableRun, hl] using hrun

/-- When the fold of the transition function is defined on the whole input
list, the `step` loop succeeds and ends in the fold state. -/
theorem tableRun_ok_stepAux (t : TransitionTable) (inputs : List Int) :
    ∀ (s : Int) (k : Nat) (sf : Int),
      tableRun t s inputs = some sf →
      ∃ os, stepAux t s k inputs = Except.ok (sf, os) := by
  induction inputs with
  | nil =>
    intro s k sf h
    simp only [tableRun, Option.some.injEq] at h
    exact ⟨[], by simp [stepAux, h]⟩
  | cons i rest ih =>
    intro s k sf h
    cases hl : t.lookup s i with
    | none => simp [tableRun, hl] at h
    | some p =>
      have h2 : tableRun t p.1 rest = some sf := by simpa [tableRun, hl] using h
      obtain ⟨os, hok⟩ := ih p.1 (k + 1) sf h2
      exact ⟨p.2 :: os, by simp [stepAux, hl, hok]⟩

/-- A single-symbol `step` call on a defined pair moves to the next state
and returns the single output. -/
theorem step_single (t : TransitionTable) (e : FSM) (i : Int) (p : Int × Int)
    (h : t.lookup e.currentState i = some p) :
    step t e [i] = (⟨p.1⟩, Except.ok [p.2]) := by
  simp [step, stepAux, h]

/-- When every transition along the input list is defined, the n successive
single-symbol calls end in the fold state. -/
theorem stepEach_run (t : TransitionTable) (inputs : List Int) :
    ∀ (e : FSM) (sf : Int),
      tableRun t e.currentState inputs = some sf →
      stepEach t e inputs = ⟨sf⟩ := by
  induction inputs with
  | nil =>
    intro e sf h
    cases e with
    | mk cs =>
      simp only [tableRun, Option.some.injEq] at h
      simp [stepEach, h]
  | cons i rest ih =>
    intro e sf h
    cases hl : t.lookup e.currentState i with
    | none => simp [tableRun, hl] at h
    | some p =>
      have h2 : tableRun t p.1 rest = some sf := by simpa [tableRun, hl] using h
      have hs := step_single t e i p hl
      have hfold : stepEach t e (i :: rest) = stepEach t ⟨p.1⟩ rest := by
        simp [stepEach, hs]
      rw [hfold]
      exact ih ⟨p.1⟩ sf h2

/-- Any fuel at least the input length makes the fuel-bounded loop agree
with the loop itself: one unit of fuel per input suffices. -/
theorem stepAuxFuel_spec (t : TransitionTable) (inputs : List Int) :
    ∀ (fuel : Nat) (s : Int) (k : Nat), inputs.length ≤ fuel →
      stepAuxFuel t fuel s k inputs = some (stepAux t s k inputs) := by
  induction inputs with
  | nil => intro fuel s k _; cases fuel <;> simp [stepAuxFuel, stepAux]
  | cons i rest ih =>
    intro fuel s k hf
    cases fuel with
    | zero => simp at hf
    | succ fuel =>
      have hf2 : rest.length ≤ fuel := by simpa using hf
      cases hl : t.lookup s i with
      | none => simp [stepAuxFuel, stepAux, hl]
      | some p =>
        have hrec := ih fuel p.1 (k + 1) hf2
        simp only [stepAuxFuel, stepAux, hl, hrec]
        cases stepAux t p.1 (k + 1) rest with
        | error err => rfl
        | ok q => rfl

/-- The `step` loop performs at most one table lookup per input symbol. -/
theorem stepLookups_le (t : TransitionTable) (inputs : List Int) :
    ∀ s : Int, stepLookups t s inputs ≤ inputs.length := by
  induction inputs with
  | nil => intro s; simp [stepLookups]
  | cons i rest ih =>
    intro s
    cases hl : t.lookup s i with
    | none => simp [stepLookups, hl]
    | some p =>
      have := ih p.1
      simp only [stepLookups, hl, List.length_cons]
      omega

/-- Claim C1: if `step` fails, the engine after the call equals the engine
before the call, and the returned error is `UndefinedTransition s i k`
where input index `k` holds the symbol `i`, `s` is the state reached after
the first `k` inputs, and the pair `(s, i)` has no table entry. -/
theorem step_failure_rolls_back (t : TransitionTable) (e : FSM) (inputs : List Int)
    (err : FSMError) (h : (step t e inputs).2 = Except.error err) :
    (step t e inputs).1 = e ∧
    ∃ k s i, err = FSMError.UndefinedTransition s i k ∧
      inputs[k]? = some i ∧
      tableRun t e.currentState (inputs.take k) = some s ∧
      t.lookup s i = none := by
  cases hs : stepAux t e.currentState 0 inputs with
  | ok q => simp [step, hs] at h
  | error err2 =>
    have h2 : err2 = err := by simpa [step, hs] using h
    subst h2
    refine ⟨by simp [step, hs], ?_⟩
    obtain ⟨j, s2, i, he, hg, hrun, hlk⟩ := stepAux_error t inputs e.currentState 0 err2 hs
    exact ⟨j, s2, i, by simpa using he, hg, hrun, hlk⟩

/-- Claim C1 witness: the failing call of the example scenario, at the
concrete table, engine state 0 and inputs [97, 99]. -/
theorem step_failure_rolls_back_witness :
    (step exTable ⟨0⟩ [97, 99]).1 = ⟨0⟩ ∧
    ∃ k s i, FSMError.UndefinedTransition 1 99 1 = FSMError.UndefinedTransition s i k ∧
      ([97, 99] : List Int)[k]? = some i ∧
      tableRun exTable (FSM.mk 0).currentState (([97, 99] : List Int).take k) = some s ∧
      exTable.lookup s i = none :=
  step_failure_rolls_back exTable ⟨0⟩ [97, 99] (FSMError.UndefinedTransition 1 99 1) rfl

/-- Claim C2: if `step` succeeds, the output list holds exactly one symbol
per consumed input in input order (it equals the `tableOuts` fold), and
the final state equals the fold of the table transition function over the
inputs from the pre-call state. -/
theorem step_success_fold (t : TransitionTable) (e : FSM) (inputs : List Int)
    (os : List Int) (h : (step t e inputs).2 = Except.ok os) :
    os.length = inputs.length ∧
    tableOuts t e.currentState inputs = some os ∧
    tableRun t e.currentState inputs = some (step t e inputs).1.currentState := by
  cases hs : stepAux t e.currentState 0 inputs with
  | error err => simp [step, hs] at h
  | ok q =>
    have h2 : q.2 = os := by simpa [step, hs] using h
    obtain ⟨r1, r2, r3⟩ := stepAux_ok t inputs e.currentState 0 q hs
    subst h2
    exact ⟨r3, r2, by simp [step, hs, r1]⟩

/-- Claim C2 witness: the succeeding call of the example scenario, at the
concrete table, engine state 0 and inputs [97, 98]. -/
theorem step_success_fold_witness :
    ([120, 121] : List Int).length = ([97, 98] : List Int).length ∧
    tableOuts exTable (FSM.mk 0).currentState [97, 98] = some [120, 121] ∧
    tableRun exTable (FSM.mk 0).currentState [97, 98] =
      some (step exTable ⟨0⟩ [97, 98]).1.currentState :=
  step_success_fold exTable ⟨0⟩ [97, 98] [120, 121] rfl

/-- Claim C3: on the table (0, 97) to (1, 120), (1, 98) to (0, 121) and an
engine created at state 0, step [97, 98] succeeds with outputs [120, 121]
and final state 0, and a subsequent step [97, 99] fails with
UndefinedTransition at state 1, symbol 99, index 1, the engine staying at
state 0 (the index 0 transition of the failed call rolled back). -/
theorem example_scenario :
    create exTable 0 = Except.ok ⟨0⟩ ∧
    createDefault exTable = Except.ok ⟨0⟩ ∧
    step exTable ⟨0⟩ [97, 98] = (⟨0⟩, Except.ok [120, 121]) ∧
    step exTable ⟨0⟩ [97, 99] =
      (⟨0⟩, Except.error (FSMError.UndefinedTransition 1 99 1)) :=
  ⟨rfl, rfl, rfl, rfl⟩

/-- Claim C4: when the fold of the transition function is defined on the
whole input list (every prefix succeeds), the one combined `step` call and
the n successive single-symbol calls reach the same state, the fold state;
when the fold is undefined (some prefix fails), the combined call fails as
a whole and the engine is unchanged. -/
theorem step_sequential_consistency (t : TransitionTable) (e : FSM) (inputs : List Int) :
    (∀ sf, tableRun t e.currentState inputs = some sf →
      (step t e inputs).1 = ⟨sf⟩ ∧ stepEach t e inputs = ⟨sf⟩) ∧
    (tableRun t e.currentState inputs = none →
      (step t e inputs).1 = e ∧ ∃ err, (step t e inputs).2 = Except.error err) := by
  constructor
  · intro sf h
    obtain ⟨os, hok⟩ := tableRun_ok_stepAux t inputs e.currentState 0 sf h
    exact ⟨by simp [step, hok], stepEach_run t inputs e sf h⟩
  · intro h
    cases hs : stepAux t e.currentState 0 inputs with
    | error err => exact ⟨by simp [step, hs], err, by simp [step, hs]⟩
    | ok q =>
      obtain ⟨r1, _, _⟩ := stepAux_ok t inputs e.currentState 0 q hs
      rw [h] at r1
      exact absurd r1 (by simp)

/-- Claim C5: `create` yields an engine whose state is the supplied initial
state exactly when that state lies in the declared range [0, nStates),
fails with `InvalidState` exactly when it does not, and the no-argument
form defaults the initial state to 0. -/
theorem create_spec (t : TransitionTable) (i : Int) :
    (create t i = Except.ok ⟨i⟩ ↔ 0 ≤ i ∧ i < (t.nStates : Int)) ∧
    (create t i = Except.error (FSMError.InvalidState i) ↔
      ¬(0 ≤ i ∧ i < (t.nStates : Int))) ∧
    createDefault t = create t 0 ∧
    (∀ e, create t i = Except.ok e → e.currentState = i) := by
  refine ⟨?_, ?_, rfl, ?_⟩
  · by_cases h : 0 ≤ i ∧ i < (t.nStates : Int) <;> simp [create, h]
  · by_cases h : 0 ≤ i ∧ i < (t.nStates : Int) <;> simp [create, h]
  · intro e he
    by_cases h : 0 ≤ i ∧ i < (t.nStates : Int) <;> simp [create, h] at he
    rw [← he]

/-- Claim C6: `step` on the empty input list always succeeds, returns the
empty output list, and leaves the engine unchanged. -/
theorem step_empty_identity (t : TransitionTable) (e : FSM) :
    step t e [] = (e, Except.ok []) := rfl

/-- Claim C7: the `step` loop is bounded by the input length: a fuel of
one unit per input symbol already makes the fuel-bounded loop agree with
the loop itself, and the loop performs at most one lookup per symbol. -/
theorem step_bounded_terminates (t : TransitionTable) (e : FSM) (inputs : List Int)
    (fuel : Nat) (h : inputs.length ≤ fuel) :
    stepAuxFuel t fuel e.currentState 0 inputs = some (stepAux t e.currentState 0 inputs) ∧
    stepLookups t e.currentState inputs ≤ inputs.length :=
  ⟨stepAuxFuel_spec t inputs fuel e.currentState 0 h, stepLookups_le t inputs e.currentState⟩

/-- Claim C7 witness: fuel 2 suffices for the two-symbol input of the
example scenario. -/
theorem step_bounded_terminates_witness :
    stepAuxFuel exTable 2 (FSM.mk 0).currentState 0 [97, 98] =
      some (stepAux exTable (FSM.mk 0).currentState 0 [97, 98]) ∧
    stepLookups exTable (FSM.mk 0).currentState [97, 98] ≤ ([97, 98] : List Int).length :=
  step_bounded_terminates exTable ⟨0⟩ [97, 98] 2 (by decide)

/-- Claim C8: table lookup is pure and deterministic: two lookups of the
same pair agree, and two `step` runs from engines in equal states on equal
inputs produce equal results. -/
theorem lookup_pure_deterministic (t : TransitionTable) (s i : Int)
    (e1 e2 : FSM) (inputs : List Int) (h : e1.currentState = e2.currentState) :
    t.lookup s i = t.lookup s i ∧ step t e1 inputs = step t e2 inputs := by
  have he : e1 = e2 := by cases e1; cases e2; simpa using h
  exact ⟨rfl, by rw [he]⟩

/-- Claim C8 witness: two lookups and two runs at the concrete example
table from state 0 agree. -/
theorem lookup_pure_deterministic_witness :
    exTable.lookup 0 97 = exTable.lookup 0 97 ∧
    step exTable ⟨0⟩ [97, 98] = step exTable ⟨0⟩ [97, 98] :=
  lookup_pure_deterministic exTable 0 97 ⟨0⟩ ⟨0⟩ [97, 98] rfl

/-- Claim C9: the declared C struct FSM has exactly the one field
`int currentState` (so no table reference and no lifecycle flag), two
engines agreeing on that field are equal (the field is the entire
observable state), and the only table data in scope of fsm_transition is
the included global mealydata.h: its parameters are just the engine handle
and the input array. -/
theorem fsm_state_is_sole_field (f g : FSM) (h : f.currentState = g.currentState) :
    f = g ∧
    FSM_struct.fields = [⟨CType.int, "currentState"⟩] ∧
    fsm_transition_decl.params =
      [CType.ptr (CType.structT "FSM"), CType.arrayNoLen CType.int] ∧
    "mealydata.h" ∈ FSM_h_includes := by
  refine ⟨?_, rfl, rfl, ?_⟩
  · cases f; cases g; simpa using h
  · simp [FSM_h_includes]

/-- Claim C9 witness: two engines at state 0. -/
theorem fsm_state_is_sole_field_witness :
    (⟨0⟩ : FSM) = ⟨0⟩ ∧
    FSM_struct.fields = [⟨CType.int, "currentState"⟩] ∧
    fsm_transition_decl.params =
      [CType.ptr (CType.structT "FSM"), CType.arrayNoLen CType.int] ∧
    "mealydata.h" ∈ FSM_h_includes :=
  fsm_state_is_sole_field ⟨0⟩ ⟨0⟩ rfl

/-- Claim C10: in the declared interface, fsm_transition returns a single
int (no output-sequence value, no typed error channel), its parameters are
the engine handle and a length-less int array, and init_fsm takes no
arguments. -/
theorem interface_single_int_result :
    fsm_transition_decl.ret = CType.int ∧
    fsm_transition_decl.params =
      [CType.ptr (CType.structT "FSM"), CType.arrayNoLen CType.int] ∧
    init_fsm_decl.params = [] ∧
    init_fsm_decl.ret = CType.ptr (CType.structT "FSM") :=
  ⟨rfl, rfl, rfl, rfl⟩

end TulipFSM
